import Mathlib

/-!
Shallow embedding of the voltorb terminal compositor core
(src/term/texel.rs, src/term/canvas.rs) and proofs about its
texel/style data model, layer composition, and frame-diffing renderer.

Machine integers (`usize`) are modelled as `Nat`; none of the modelled
arithmetic can overflow in the scenarios considered.  Rust panics
(slice `chunks(0)`, out-of-range indexing) are modelled by `Option`:
a `none` result stands for a panic of the whole call.  The fallible
terminal writer is modelled as an explicit state machine returning
`Except`.
-/

namespace Voltorb

/-- texel.rs `Color`: the 16 standard ANSI colors. -/
inductive Color
  | DkBlack | DkRed | DkGreen | DkYellow | DkBlue | DkMagenta | DkCyan | DkWhite
  | LtBlack | LtRed | LtGreen | LtYellow | LtBlue | LtMagenta | LtCyan | LtWhite
deriving DecidableEq

/-- texel.rs `Weight`: a character weight. -/
inductive Weight
  | Normal | Light | Bold
deriving DecidableEq

/-- texel.rs `Meta`: the `BitFlags<Meta>` bitset, one boolean per flag
(Bold, Dim, Uline, BgReset, FgReset).  Equality of this structure is
bitset equality, matching the derived `PartialEq` on `BitFlags`. -/
structure Meta where
  bold : Bool
  dim : Bool
  uline : Bool
  bgReset : Bool
  fgReset : Bool
deriving DecidableEq

/-- texel.rs `Style`: stored foreground and background colors plus the
meta bitset.  The stored fields are named `fgRaw`/`bgRaw` because the
public accessors `fg()`/`bg()` keep the source names `fg`/`bg`.
The derived `PartialEq` of the source compares all three fields; that is
exactly equality of this structure. -/
structure Style where
  fgRaw : Color
  bgRaw : Color
  meta : Meta
deriving DecidableEq

/-- `Style::new()`: both colors in the reset state, normal weight. -/
def Style.new : Style :=
  { fgRaw := Color.DkBlack, bgRaw := Color.DkBlack,
    meta := { bold := false, dim := false, uline := false,
              bgReset := true, fgReset := true } }

/-- `Style::fg()`: the tri-state foreground observable. -/
def Style.fg (s : Style) : Option Color :=
  if s.meta.fgReset then none else some s.fgRaw

/-- `Style::with_fg()`: removes FgReset, then either stores the color or
re-adds FgReset. -/
def Style.with_fg (s : Style) (color : Option Color) : Style :=
  match color with
  | some rgb => { s with fgRaw := rgb, meta := { s.meta with fgReset := false } }
  | none => { s with meta := { s.meta with fgReset := true } }

/-- `Style::bg()`: the tri-state background observable. -/
def Style.bg (s : Style) : Option Color :=
  if s.meta.bgReset then none else some s.bgRaw

/-- `Style::with_bg()`: removes BgReset, then either stores the color or
re-adds BgReset. -/
def Style.with_bg (s : Style) (color : Option Color) : Style :=
  match color with
  | some rgb => { s with bgRaw := rgb, meta := { s.meta with bgReset := false } }
  | none => { s with meta := { s.meta with bgReset := true } }

/-- `Style::weight()`: Bold wins over Dim, otherwise Normal. -/
def Style.weight (s : Style) : Weight :=
  if s.meta.bold then Weight.Bold
  else if s.meta.dim then Weight.Light
  else Weight.Normal

/-- `Style::with_weight()`: removes Bold and Dim, then sets the flag of the
requested weight. -/
def Style.with_weight (s : Style) (weight : Weight) : Style :=
  let cleared := { s with meta := { s.meta with bold := false, dim := false } }
  match weight with
  | Weight.Normal => cleared
  | Weight.Bold => { cleared with meta := { cleared.meta with bold := true } }
  | Weight.Light => { cleared with meta := { cleared.meta with dim := true } }

/-- `Style::diff()`: per-attribute change report, comparing the `fg()`,
`bg()` and `weight()` observables and reporting the target's value where
they differ. -/
def Style.diff (self into : Style) :
    Option (Option Color) × Option (Option Color) × Option Weight :=
  let r0 := if self.fg ≠ into.fg then some into.fg else none
  let r1 := if self.bg ≠ into.bg then some into.bg else none
  let r2 := if self.weight ≠ into.weight then some into.weight else none
  (r0, r1, r2)

/-- texel.rs `Texel`: an optional glyph plus a style. -/
structure Texel where
  glyph : Option Char
  style : Style
deriving DecidableEq

/-- `Texel::new()`: a colorless texel with the given glyph. -/
def Texel.new (glyph : Char) : Texel :=
  { glyph := some glyph, style := Style.new }

/-- `Texel::empty()`: a colorless texel with no glyph. -/
def Texel.empty : Texel :=
  { glyph := none, style := Style.new }

/-- `Texel::with_style()`. -/
def Texel.with_style (t : Texel) (style : Style) : Texel :=
  { t with style := style }

/-- tty.rs `Cell`: a zero-indexed column-row coordinate pair. -/
structure Cell where
  col : Nat
  row : Nat
deriving DecidableEq

/-- `Cell::from_xy()`. -/
def Cell.from_xy (col row : Nat) : Cell :=
  { col := col, row := row }

/-- canvas.rs `Layer`: an origin, a row stride, and row-major texel data. -/
structure Layer where
  origin : Cell
  stride : Nat
  data : List Texel

/-- `Layer::antipode()`: the inclusive opposite corner.  The source's
`usize` subtractions are modelled by `Nat` subtraction; the source
documents this as meaningless for empty data or zero stride. -/
def Layer.antipode (l : Layer) : Cell :=
  Cell.from_xy (l.origin.col + l.stride - 1)
    (l.origin.row + l.data.length / l.stride - 1)

/-- canvas.rs `Canvas`: the viewport, the retained last-frame buffer, and
the buffer vector's capacity (observable because `render` fills the
scratch buffer up to `capacity()`). -/
structure Canvas where
  viewport : Cell
  buffer : List Texel
  cap : Nat
deriving DecidableEq

/-- `Canvas::new()`: empty buffer with capacity `columns * rows`. -/
def Canvas.new (viewport : Cell) : Canvas :=
  { viewport := viewport, buffer := [], cap := viewport.col * viewport.row }

/-- Rust `Vec::reserve(additional)` on a vector of length `len` and
capacity `cap`: does nothing when `cap - len ≥ additional`, otherwise
grows amortized to `max (2 * cap) (len + additional)` (with the RawVec
minimum non-zero capacity of 4 for elements of `Texel`'s size). -/
def vecReserve (cap len additional : Nat) : Nat :=
  if additional ≤ cap - len then cap
  else max 4 (max (2 * cap) (len + additional))

/-- `Canvas::winch()`: records the new viewport, clears the buffer, then
shrinks the capacity when the new cell count is below half the capacity,
or calls `reserve` for the missing growth when the new cell count is at
least the capacity (`new_cap.checked_sub(capacity)`). -/
def Canvas.winch (c : Canvas) (viewport : Cell) : Canvas :=
  let newCap := viewport.col * viewport.row
  let cap :=
    if newCap < c.cap / 2 then newCap
    else if c.cap ≤ newCap then vecReserve c.cap 0 (newCap - c.cap)
    else c.cap
  { viewport := viewport, buffer := [], cap := cap }

/-- Fuel-indexed body of Rust slice `chunks(n)`: the first chunk is the
first `n` elements, the rest are the chunks of what remains.  Each step
consumes at least one element, so fuel equal to the list length always
suffices; the fuel only makes the recursion structural. -/
def chunksFuel (n : Nat) : Nat → List α → List (List α)
  | _, [] => []
  | 0, _ :: _ => []
  | fuel + 1, x :: xs => (x :: xs.take (n - 1)) :: chunksFuel n fuel (xs.drop (n - 1))

/-- Rust slice `chunks(n)` for `n ≥ 1`: splits a list into consecutive
chunks of `n` elements, the last chunk possibly shorter. -/
def listChunks (n : Nat) (l : List α) : List (List α) :=
  chunksFuel n l.length l

/-- Rust slice `chunks(n)` including its `n ≠ 0` assertion: `none` models
the panic on a zero chunk size. -/
def chunksOpt (n : Nat) (l : List α) : Option (List (List α)) :=
  if n = 0 then none else some (listChunks n l)

/-- The inner compositing loop of `Canvas::render`
(`zip(dst[ox..].iter_mut(), src)`): a source texel overwrites the
destination only when it has a glyph; the zip stops at the shorter side. -/
def zipOverwrite : List Texel → List Texel → List Texel
  | dst, [] => dst
  | [], _ :: _ => []
  | d :: dst, s :: src => (if s.glyph.isSome then s else d) :: zipOverwrite dst src

/-- One destination row of the compositing loop: `dst[ox..]` panics
(`none`) when `ox` exceeds the row length; otherwise the prefix before
`ox` is kept and the rest is overwritten glyph-wise from `src`. -/
def compositeRow (dst src : List Texel) (ox : Nat) : Option (List Texel) :=
  if ox ≤ dst.length then
    some (dst.take ox ++ zipOverwrite (dst.drop ox) src)
  else none

/-- The row-level zip of the compositing loop
(`zip(dst_iter, src_iter)` after the `skip`): pairs destination rows with
source rows, stopping at the shorter side and leaving unpaired
destination rows unchanged. -/
def compositeRows (ox : Nat) : List (List Texel) → List (List Texel) → Option (List (List Texel))
  | dsts, [] => some dsts
  | [], _ :: _ => some []
  | d :: ds, s :: ss =>
    match compositeRow d s ox with
    | none => none
    | some d' =>
      match compositeRows ox ds ss with
      | none => none
      | some rest => some (d' :: rest)

/-- One iteration of the layer loop of `Canvas::render`: a layer whose
origin column is at or beyond the viewport width is skipped outright;
otherwise its data is chunked by its stride (panicking on stride zero),
the destination is chunked by the viewport width and the first
`origin.row` rows are skipped, and rows are composited pairwise. -/
def compositeLayer (cols : Nat) (buffer : List Texel) (l : Layer) : Option (List Texel) :=
  if l.origin.col ≥ cols then some buffer
  else
    match chunksOpt l.stride l.data with
    | none => none
    | some srcRows =>
      match compositeRows l.origin.col ((listChunks cols buffer).drop l.origin.row) srcRows with
      | none => none
      | some post => some (((listChunks cols buffer).take l.origin.row ++ post).flatten)

/-- The full layer loop of `Canvas::render`: layers are composited in
order onto the scratch buffer. -/
def compositeAll (cols : Nat) (buffer : List Texel) : List Layer → Option (List Texel)
  | [] => some buffer
  | l :: ls =>
    match compositeLayer cols buffer l with
    | none => none
    | some buffer' => compositeAll cols buffer' ls

/-- The per-row diff loop of `Canvas::render`, on the list of
(new texel, old texel) pairs of a row.  `j` is the position of the next
pair, `lb` is `last_boundary` and `same` is `same_at_last_boundary`;
the result lists the half-open spans `(start, stop)` passed to
`tty.write`, in order.  A span is emitted at each transition from a
differing run to an unchanged run, and the final span `[lb, end)` is
emitted exactly when the loop finishes in the `same` state. -/
def rowRuns : List (Texel × Texel) → Nat → Nat → Bool → List (Nat × Nat)
  | [], j, lb, same => if same then [(lb, j)] else []
  | p :: ps, j, lb, same =>
    let s : Bool := decide (p.2 = p.1)
    if s = same then rowRuns ps (j + 1) lb same
    else if s then (lb, j) :: rowRuns ps (j + 1) j s
    else rowRuns ps (j + 1) j s

/-- The write calls issued for row `i` when a prior frame exists:
`oldRem` is the prior buffer starting at this row's first flat index;
indexing `old[i * cols + j]` panics (`none`) when the row extends past
the prior buffer.  Each span becomes a write starting at
`(span.start, i)` carrying exactly `line[span.start..span.stop]`. -/
def rowWrites (i : Nat) (line oldRem : List Texel) : Option (List (Cell × List Texel)) :=
  if line.length ≤ oldRem.length then
    some ((rowRuns (line.zip oldRem) 0 0 true).map
      (fun se => (Cell.from_xy se.1 i, (line.drop se.1).take (se.2 - se.1))))
  else none

/-- The diff loop over all rows (prior-frame branch): row `i` reads the
prior buffer at flat offsets `i * cols ..`, so the remaining prior buffer
advances by `cols` per row. -/
def diffWrites (cols : Nat) : Nat → List (List Texel) → List Texel → Option (List (Cell × List Texel))
  | _, [], _ => some []
  | i, line :: rest, oldRem =>
    match rowWrites i line oldRem with
    | none => none
    | some ws =>
      match diffWrites cols (i + 1) rest (oldRem.drop cols) with
      | none => none
      | some rest' => some (ws ++ rest')

/-- The no-prior-frame branch of the diff loop: each row is written
unconditionally by a single write starting at `(0, i)`. -/
def fullWrites : List (List Texel) → Nat → List (Cell × List Texel)
  | [], _ => []
  | line :: rest, i => (Cell.from_xy 0 i, line) :: fullWrites rest (i + 1)

/-- The pure part of `Canvas::render`: the composited scratch buffer
(`capacity()` empty texels overlaid with the layers) and the ordered
list of write calls the render issues.  `none` models a panic: a zero
stride reached by the layer loop, an out-of-range prior-frame index, or
`chunks(0)` on a zero-width viewport in the diff loop. -/
def renderPlan (c : Canvas) (layers : List Layer) :
    Option (List Texel × List (Cell × List Texel)) :=
  match compositeAll c.viewport.col (List.replicate c.cap Texel.empty) layers with
  | none => none
  | some newBuf =>
    if c.viewport.col = 0 then none
    else
      match
        if c.buffer.isEmpty then some (fullWrites (listChunks c.viewport.col newBuf) 0)
        else diffWrites c.viewport.col 0 (listChunks c.viewport.col newBuf) c.buffer
      with
      | none => none
      | some writes => some (newBuf, writes)

/-- Threads the terminal writer over the issued write calls, stopping at
the first failure.  The writer is a state machine returning the count of
texels drawn (discarded by `render`, which only propagates errors). -/
def runWrites {σ ε : Type} (w : σ → Cell → List Texel → Except ε (Nat × σ)) :
    σ → List (Cell × List Texel) → Except ε σ
  | s, [] => Except.ok s
  | s, (cell, txs) :: rest =>
    match w s cell txs with
    | Except.ok (_, s') => runWrites w s' rest
    | Except.error e => Except.error e

/-- `Canvas::render`: computes the plan, performs the writes, and installs
the scratch buffer as the retained frame only after every write
succeeded.  When a prior frame exists the composition happened in a side
buffer, so on failure the retained buffer is untouched; without a prior
frame the scratch buffer is the retained vector itself, already filled
before the first write. -/
def render {σ ε : Type} (c : Canvas) (layers : List Layer)
    (w : σ → Cell → List Texel → Except ε (Nat × σ)) (s : σ) :
    Option (Except ε σ × Canvas) :=
  match renderPlan c layers with
  | none => none
  | some (newBuf, writes) =>
    match runWrites w s writes with
    | Except.ok s' => some (Except.ok s', { c with buffer := newBuf })
    | Except.error e =>
      some (Except.error e, if c.buffer.isEmpty then { c with buffer := newBuf } else c)

/-- A terminal writer that always succeeds and draws every texel. -/
def okTty : Unit → Cell → List Texel → Except Unit (Nat × Unit) :=
  fun _ _ txs => Except.ok (txs.length, ())

/-- A terminal writer whose every write fails with an I/O error. -/
def failTty : Unit → Cell → List Texel → Except Unit (Nat × Unit) :=
  fun _ _ _ => Except.error ()

/-- A one-cell layer holding a single transparent (glyph-less) texel. -/
def glassLayer : Layer :=
  { origin := Cell.from_xy 0 0, stride := 1, data := [Texel.empty] }

/-- A 20x3 canvas whose retained frame is all-empty, as produced by
rendering no layers on `Canvas.new (Cell.from_xy 20 3)`. -/
def runCanvas : Canvas :=
  { viewport := Cell.from_xy 20 3, buffer := List.replicate 60 Texel.empty, cap := 60 }

/-- A layer of three opaque texels landing on cells (3,2), (4,2), (5,2):
the new frame differs from `runCanvas`'s prior frame exactly there. -/
def runLayer : Layer :=
  { origin := Cell.from_xy 3 2, stride := 3, data := List.replicate 3 (Texel.new 'a') }

/-- Row-major cell observer of a buffer of viewport width `cols`. -/
def texelAt (cols : Nat) (buf : List Texel) (cell : Cell) : Option Texel :=
  if cell.col < cols then buf[cell.row * cols + cell.col]? else none

/-- The texel a layer contributes at an absolute cell: defined when the
cell lies at or right of the origin column, at or below the origin row,
within the stride, and within the layer's (stride-chunked) data. -/
def layerTexelAt (l : Layer) (cell : Cell) : Option Texel :=
  if l.origin.col ≤ cell.col ∧ cell.col - l.origin.col < l.stride ∧ l.origin.row ≤ cell.row then
    ((listChunks l.stride l.data)[cell.row - l.origin.row]?).bind
      (fun srcRow => srcRow[cell.col - l.origin.col]?)
  else none

theorem chunksFuel_congr {α : Type} (n : Nat) :
    ∀ (f₁ f₂ : Nat) (l : List α), l.length ≤ f₁ → l.length ≤ f₂ →
      chunksFuel n f₁ l = chunksFuel n f₂ l := by
  intro f₁
  induction f₁ with
  | zero =>
    intro f₂ l h₁ _
    have : l = [] := List.eq_nil_of_length_eq_zero (Nat.le_zero.mp h₁)
    subst this
    cases f₂ <;> rfl
  | succ g ih =>
    intro f₂ l h₁ h₂
    cases l with
    | nil => cases f₂ <;> rfl
    | cons x xs =>
      cases f₂ with
      | zero => exact absurd h₂ (by simp)
      | succ g₂ =>
        simp only [chunksFuel]
        congr 1
        apply ih
        · calc (xs.drop (n - 1)).length ≤ xs.length := by
                simp [List.length_drop]
              _ ≤ g := by simpa using h₁
        · calc (xs.drop (n - 1)).length ≤ xs.length := by
                simp [List.length_drop]
              _ ≤ g₂ := by simpa using h₂

theorem listChunks_nil {α : Type} (n : Nat) : listChunks n ([] : List α) = [] := rfl

theorem listChunks_cons {α : Type} (n : Nat) (x : α) (xs : List α) :
    listChunks n (x :: xs) = (x :: xs.take (n - 1)) :: listChunks n (xs.drop (n - 1)) := by
  simp only [listChunks, List.length_cons, chunksFuel]
  congr 1
  apply chunksFuel_congr
  · simp [List.length_drop]
  · exact le_rfl

theorem flatten_listChunks {α : Type} (n : Nat) (l : List α) :
    (listChunks n l).flatten = l := by
  suffices h : ∀ (fuel : Nat) (l : List α), l.length ≤ fuel →
      (chunksFuel n fuel l).flatten = l from h l.length l le_rfl
  intro fuel
  induction fuel with
  | zero =>
    intro l h
    have : l = [] := List.eq_nil_of_length_eq_zero (Nat.le_zero.mp h)
    subst this; rfl
  | succ g ih =>
    intro l h
    cases l with
    | nil => rfl
    | cons x xs =>
      simp only [chunksFuel, List.flatten_cons]
      rw [ih (xs.drop (n - 1)) ?_]
      · simp [List.take_append_drop]
      · calc (xs.drop (n - 1)).length ≤ xs.length := by simp [List.length_drop]
          _ ≤ g := by simpa using h

example : listChunks 2 [1, 2, 3, 4, 5] = [[1, 2], [3, 4], [5]] := by decide

theorem listChunks_length_of_mul {α : Type} (n : Nat) (hn : 0 < n) :
    ∀ (k : Nat) (l : List α), l.length = n * k → (listChunks n l).length = k := by
  intro k
  induction k with
  | zero =>
    intro l hl
    have : l = [] := List.eq_nil_of_length_eq_zero (by simpa using hl)
    subst this; rfl
  | succ j ih =>
    intro l hl
    cases l with
    | nil => simp [Nat.mul_succ] at hl; omega
    | cons x xs =>
      rw [listChunks_cons]
      simp only [List.length_cons]
      congr 1
      apply ih
      have hxs : xs.length = n * (j + 1) - 1 := by
        have := hl; simp only [List.length_cons] at this; omega
      have : (xs.drop (n - 1)).length = xs.length - (n - 1) := by
        simp [List.length_drop]
      rw [this, hxs, Nat.mul_succ]
      omega

theorem listChunks_full_of_mul {α : Type} (n : Nat) (hn : 0 < n) :
    ∀ (k : Nat) (l : List α), l.length = n * k →
      ∀ c ∈ listChunks n l, c.length = n := by
  intro k
  induction k with
  | zero =>
    intro l hl c hc
    have : l = [] := List.eq_nil_of_length_eq_zero (by simpa using hl)
    subst this; simp [listChunks_nil] at hc
  | succ j ih =>
    intro l hl c hc
    cases l with
    | nil => simp [Nat.mul_succ] at hl; omega
    | cons x xs =>
      rw [listChunks_cons] at hc
      have hxs : xs.length = n * j + n - 1 := by
        have := hl; simp only [List.length_cons, Nat.mul_succ] at this; omega
      rcases List.mem_cons.mp hc with h | h
      · subst h
        simp only [List.length_cons, List.length_take]
        omega
      · refine ih (xs.drop (n - 1)) ?_ c h
        rw [List.length_drop, hxs, Nat.mul_succ] at *
        omega

theorem mem_of_mem_listChunks {α : Type} (n : Nat) (l : List α) :
    ∀ c ∈ listChunks n l, ∀ x ∈ c, x ∈ l := by
  suffices h : ∀ (fuel : Nat) (l : List α), l.length ≤ fuel →
      ∀ c ∈ chunksFuel n fuel l, ∀ x ∈ c, x ∈ l from h l.length l le_rfl
  intro fuel
  induction fuel with
  | zero =>
    intro l h c hc
    have : l = [] := List.eq_nil_of_length_eq_zero (Nat.le_zero.mp h)
    subst this; simp [chunksFuel] at hc
  | succ g ih =>
    intro l h c hc x hx
    cases l with
    | nil => simp [chunksFuel] at hc
    | cons y ys =>
      simp only [chunksFuel, List.mem_cons] at hc
      rcases hc with h' | h'
      · subst h'
        rcases List.mem_cons.mp hx with h'' | h''
        · simp [h'']
        · exact List.mem_cons_of_mem _ (List.take_subset _ _ h'')
      · have hlen : (ys.drop (n - 1)).length ≤ g := by
          have h1 : (ys.drop (n - 1)).length ≤ ys.length := by simp [List.length_drop]
          have h2 : ys.length ≤ g := by simpa using h
          omega
        have hy : x ∈ ys.drop (n - 1) := ih (ys.drop (n - 1)) hlen c h' x hx
        exact List.mem_cons_of_mem _ (List.drop_subset _ _ hy)

theorem zipOverwrite_length (dst src : List Texel) :
    (zipOverwrite dst src).length = dst.length := by
  induction dst generalizing src with
  | nil => cases src <;> rfl
  | cons d ds ih =>
    cases src with
    | nil => rfl
    | cons s ss => simp [zipOverwrite, ih]

theorem zipOverwrite_transparent (dst src : List Texel)
    (h : ∀ t ∈ src, t.glyph = none) : zipOverwrite dst src = dst := by
  induction dst generalizing src with
  | nil => cases src <;> rfl
  | cons d ds ih =>
    cases src with
    | nil => rfl
    | cons s ss =>
      have hs : s.glyph = none := h s (List.mem_cons_self s ss)
      simp only [zipOverwrite, hs, Option.isSome_none, Bool.false_eq_true, if_false]
      rw [ih ss (fun t ht => h t (List.mem_cons_of_mem s ht))]

theorem zipOverwrite_getElem?_src (dst src : List Texel) (t : Nat) (st : Texel)
    (hs : src[t]? = some st) (ht : t < dst.length) (hg : st.glyph.isSome = true) :
    (zipOverwrite dst src)[t]? = some st := by
  induction dst generalizing src t with
  | nil => simp at ht
  | cons d ds ih =>
    cases src with
    | nil => simp at hs
    | cons s ss =>
      cases t with
      | zero =>
        have : s = st := by simpa using hs
        subst this
        simp [zipOverwrite, hg]
      | succ t' =>
        simp only [zipOverwrite, List.getElem?_cons_succ]
        exact ih ss t' (by simpa using hs) (by simpa using ht)

example : Style.new.fg = none := by decide
example : (Style.new.with_fg (some Color.LtRed)).fg = some Color.LtRed := by decide
example : ((Style.new.with_fg (some Color.LtRed)).with_fg none).fg = none := by decide
example : (Style.new.with_weight Weight.Bold).weight = Weight.Bold := by decide
example :
    ((Style.new.with_fg (some Color.LtRed)).diff (Style.new.with_fg none)).1
      = some none := by decide

example :
    (renderPlan runCanvas [runLayer]).map (fun p => p.2.map (fun w => (w.1, w.2.length)))
      = some [(Cell.from_xy 0 0, 20), (Cell.from_xy 0 1, 20),
              (Cell.from_xy 3 2, 3), (Cell.from_xy 6 2, 14)] := by decide

example :
    render (Canvas.new (Cell.from_xy 2 2)) [] okTty ()
      = some (Except.ok (),
          { viewport := Cell.from_xy 2 2, buffer := List.replicate 4 Texel.empty, cap := 4 }) := rfl

example :
    ((Canvas.new (Cell.from_xy 2 2)).winch (Cell.from_xy 3 2)).cap = 4 := by decide

example :
    renderPlan { viewport := Cell.from_xy 3 2, buffer := [], cap := 4 } []
      = some (List.replicate 4 Texel.empty,
          [(Cell.from_xy 0 0, List.replicate 3 Texel.empty),
           (Cell.from_xy 0 1, [Texel.empty])]) := by decide

theorem compositeRow_length (dst src : List Texel) (ox : Nat) (r : List Texel)
    (h : compositeRow dst src ox = some r) : r.length = dst.length := by
  unfold compositeRow at h
  split at h
  · rename_i hox
    have := Option.some.inj h
    subst this
    simp [zipOverwrite_length, List.length_take, List.length_drop]
    omega
  · exact absurd h (by simp)

theorem compositeRow_transparent (dst src : List Texel) (ox : Nat) (r : List Texel)
    (htr : ∀ t ∈ src, t.glyph = none)
    (h : compositeRow dst src ox = some r) : r = dst := by
  unfold compositeRow at h
  split at h
  · have := Option.some.inj h
    subst this
    rw [zipOverwrite_transparent _ _ htr, List.take_append_drop]
  · exact absurd h (by simp)

theorem compositeRow_getElem? (dst src : List Texel) (ox : Nat) (r : List Texel)
    (t : Nat) (st : Texel)
    (h : compositeRow dst src ox = some r) (hs : src[t]? = some st)
    (hg : st.glyph.isSome = true) (ht : ox + t < dst.length) :
    r[ox + t]? = some st := by
  unfold compositeRow at h
  split at h
  · rename_i hox
    have := Option.some.inj h
    subst this
    have hlen : (dst.take ox).length = ox := by
      simp [List.length_take]; omega
    rw [List.getElem?_append_right (by omega)]
    rw [hlen]
    have : ox + t - ox = t := by omega
    rw [this]
    exact zipOverwrite_getElem?_src _ _ _ _ hs (by simp [List.length_drop]; omega) hg
  · exact absurd h (by simp)

theorem compositeRows_map_length (ox : Nat) (ds ss rs : List (List Texel))
    (h : compositeRows ox ds ss = some rs) :
    rs.map List.length = ds.map List.length := by
  induction ds generalizing ss rs with
  | nil =>
    cases ss with
    | nil => cases Option.some.inj h; rfl
    | cons s ss' => cases Option.some.inj h; rfl
  | cons d ds' ih =>
    cases ss with
    | nil => cases Option.some.inj h; rfl
    | cons s ss' =>
      unfold compositeRows at h
      cases hr : compositeRow d s ox with
      | none => rw [hr] at h; exact absurd h (by simp)
      | some d' =>
        rw [hr] at h
        cases hrest : compositeRows ox ds' ss' with
        | none => rw [hrest] at h; exact absurd h (by simp)
        | some rest =>
          rw [hrest] at h
          cases Option.some.inj h
          simp only [List.map_cons]
          rw [compositeRow_length _ _ _ _ hr, ih _ _ hrest]

theorem compositeRows_transparent (ox : Nat) (ds ss rs : List (List Texel))
    (htr : ∀ row ∈ ss, ∀ t ∈ row, t.glyph = none)
    (h : compositeRows ox ds ss = some rs) : rs = ds := by
  induction ds generalizing ss rs with
  | nil =>
    cases ss with
    | nil => exact (Option.some.inj h).symm
    | cons s ss' => exact (Option.some.inj h).symm
  | cons d ds' ih =>
    cases ss with
    | nil => exact (Option.some.inj h).symm
    | cons s ss' =>
      unfold compositeRows at h
      cases hr : compositeRow d s ox with
      | none => rw [hr] at h; exact absurd h (by simp)
      | some d' =>
        rw [hr] at h
        cases hrest : compositeRows ox ds' ss' with
        | none => rw [hrest] at h; exact absurd h (by simp)
        | some rest =>
          rw [hrest] at h
          cases Option.some.inj h
          have h1 : d' = d :=
            compositeRow_transparent _ _ _ _ (htr s (List.mem_cons_self s ss')) hr
          have h2 : rest = ds' :=
            ih ss' rest (fun row hrow => htr row (List.mem_cons_of_mem s hrow)) hrest
          rw [h1, h2]

theorem compositeRows_getElem? (ox : Nat) (ds ss rs : List (List Texel))
    (k : Nat) (d s : List Texel)
    (h : compositeRows ox ds ss = some rs)
    (hd : ds[k]? = some d) (hs : ss[k]? = some s) :
    ∃ d', compositeRow d s ox = some d' ∧ rs[k]? = some d' := by
  induction ds generalizing ss rs k with
  | nil => simp at hd
  | cons d₀ ds' ih =>
    cases ss with
    | nil => simp at hs
    | cons s₀ ss' =>
      unfold compositeRows at h
      cases hr : compositeRow d₀ s₀ ox with
      | none => rw [hr] at h; exact absurd h (by simp)
      | some d₀' =>
        rw [hr] at h
        cases hrest : compositeRows ox ds' ss' with
        | none => rw [hrest] at h; exact absurd h (by simp)
        | some rest =>
          rw [hrest] at h
          cases Option.some.inj h
          cases k with
          | zero =>
            have hd0 : d₀ = d := by simpa using hd
            have hs0 : s₀ = s := by simpa using hs
            subst hd0; subst hs0
            exact ⟨d₀', hr, by simp⟩
          | succ k' =>
            have hd' : ds'[k']? = some d := by simpa using hd
            have hs' : ss'[k']? = some s := by simpa using hs
            obtain ⟨d', h1, h2⟩ := ih ss' rest k' hrest hd' hs'
            exact ⟨d', h1, by simpa using h2⟩

theorem flatten_length_congr (A B : List (List Texel))
    (h : A.map List.length = B.map List.length) :
    A.flatten.length = B.flatten.length := by
  induction A generalizing B with
  | nil => cases B with
    | nil => rfl
    | cons b bs => simp at h
  | cons a as ih =>
    cases B with
    | nil => simp at h
    | cons b bs =>
      simp only [List.map_cons, List.cons.injEq] at h
      simp only [List.flatten_cons, List.length_append, h.1, ih bs h.2]

theorem compositeLayer_length (cols : Nat) (buffer : List Texel) (l : Layer)
    (r : List Texel) (h : compositeLayer cols buffer l = some r) :
    r.length = buffer.length := by
  unfold compositeLayer at h
  split at h
  · cases Option.some.inj h; rfl
  · split at h
    · exact absurd h (by simp)
    · split at h
      · exact absurd h (by simp)
      · rename_i srcRows hch post hcr
        cases Option.some.inj h
        have hmap := compositeRows_map_length _ _ _ _ hcr
        have hlen : ((listChunks cols buffer).take l.origin.row ++ post).flatten.length
            = ((listChunks cols buffer).take l.origin.row
                ++ (listChunks cols buffer).drop l.origin.row).flatten.length := by
          apply flatten_length_congr
          simp only [List.map_append]
          rw [hmap]
        rw [hlen, List.take_append_drop, flatten_listChunks]

theorem compositeLayer_transparent (cols : Nat) (buffer : List Texel) (l : Layer)
    (r : List Texel) (htr : ∀ t ∈ l.data, t.glyph = none)
    (h : compositeLayer cols buffer l = some r) : r = buffer := by
  unfold compositeLayer at h
  split at h
  · exact (Option.some.inj h).symm
  · cases hch : chunksOpt l.stride l.data with
    | none => rw [hch] at h; simp at h
    | some srcRows =>
      rw [hch] at h
      simp only at h
      cases hcr : compositeRows l.origin.col
          ((listChunks cols buffer).drop l.origin.row) srcRows with
      | none => rw [hcr] at h; simp at h
      | some post =>
        rw [hcr] at h
        simp only at h
        cases Option.some.inj h
        have hsrc : srcRows = listChunks l.stride l.data := by
          unfold chunksOpt at hch
          split at hch
          · exact absurd hch (by simp)
          · exact (Option.some.inj hch).symm
        have htr' : ∀ row ∈ srcRows, ∀ t ∈ row, t.glyph = none := by
          intro row hrow t ht
          exact htr t (mem_of_mem_listChunks l.stride l.data row (hsrc ▸ hrow) t ht)
        rw [compositeRows_transparent _ _ _ _ htr' hcr, List.take_append_drop,
          flatten_listChunks]

theorem compositeAll_length (cols : Nat) (buffer : List Texel) (ls : List Layer)
    (r : List Texel) (h : compositeAll cols buffer ls = some r) :
    r.length = buffer.length := by
  induction ls generalizing buffer with
  | nil => cases Option.some.inj h; rfl
  | cons l ls' ih =>
    unfold compositeAll at h
    cases hl : compositeLayer cols buffer l with
    | none => rw [hl] at h; exact absurd h (by simp)
    | some buffer' =>
      rw [hl] at h
      rw [ih buffer' h, compositeLayer_length _ _ _ _ hl]

theorem zip_take_self {α : Type} (l : List α) (k : Nat) :
    ∀ p ∈ (l.take k).zip l, p.2 = p.1 := by
  induction l generalizing k with
  | nil => intro p hp; simp at hp
  | cons x xs ih =>
    cases k with
    | zero => intro p hp; simp at hp
    | succ j =>
      intro p hp
      simp only [List.take_succ_cons, List.zip_cons_cons, List.mem_cons] at hp
      rcases hp with h | h
      · subst h; rfl
      · exact ih j p h

theorem rowRuns_all_same (ps : List (Texel × Texel)) (hps : ∀ p ∈ ps, p.2 = p.1) :
    ∀ (j lb : Nat), rowRuns ps j lb true = [(lb, j + ps.length)] := by
  induction ps with
  | nil => intro j lb; rfl
  | cons p ps' ih =>
    intro j lb
    obtain ⟨a, b⟩ := p
    have hab : b = a := hps (a, b) (List.mem_cons_self _ _)
    subst hab
    have hstep : rowRuns ((b, b) :: ps') j lb true = rowRuns ps' (j + 1) lb true := by
      simp [rowRuns]
    rw [hstep, ih (fun q hq => hps q (List.mem_cons_of_mem _ hq)) (j + 1) lb]
    have harith : j + 1 + ps'.length = j + ((b, b) :: ps').length := by
      simp only [List.length_cons]; omega
    rw [harith]

theorem diffWrites_self (cols : Nat) (hcols : 0 < cols) (nb : List Texel) :
    ∀ (i : Nat), diffWrites cols i (listChunks cols nb) nb
      = some (fullWrites (listChunks cols nb) i) := by
  suffices h : ∀ (fuel : Nat) (nb : List Texel), nb.length ≤ fuel → ∀ i,
      diffWrites cols i (listChunks cols nb) nb
        = some (fullWrites (listChunks cols nb) i) from
    fun i => h nb.length nb le_rfl i
  intro fuel
  induction fuel with
  | zero =>
    intro nb h i
    have : nb = [] := List.eq_nil_of_length_eq_zero (Nat.le_zero.mp h)
    subst this; rfl
  | succ g ih =>
    intro nb h i
    cases nb with
    | nil => rfl
    | cons x xs =>
      rw [listChunks_cons]
      have hline : x :: xs.take (cols - 1) = (x :: xs).take cols := by
        cases cols with
        | zero => omega
        | succ m => simp
      have hdrop : xs.drop (cols - 1) = (x :: xs).drop cols := by
        cases cols with
        | zero => omega
        | succ m => simp
      unfold diffWrites
      have hrw : rowWrites i (x :: xs.take (cols - 1)) (x :: xs)
          = some [(Cell.from_xy 0 i, x :: xs.take (cols - 1))] := by
        unfold rowWrites
        have hlen : (x :: xs.take (cols - 1)).length ≤ (x :: xs).length := by
          simp [List.length_take]
        rw [if_pos hlen]
        have hzip : ∀ p ∈ (x :: xs.take (cols - 1)).zip (x :: xs), p.2 = p.1 := by
          rw [hline]
          exact zip_take_self (x :: xs) cols
        rw [rowRuns_all_same _ hzip 0 0]
        simp
      rw [hrw]
      have hrest : diffWrites cols (i + 1) (listChunks cols (xs.drop (cols - 1)))
          ((x :: xs).drop cols) = some (fullWrites (listChunks cols (xs.drop (cols - 1))) (i + 1)) := by
        rw [← hdrop]
        apply ih
        have h1 : (xs.drop (cols - 1)).length ≤ xs.length := by simp [List.length_drop]
        have h2 : xs.length ≤ g := by simpa using h
        omega
      rw [hrest]
      simp [fullWrites]

theorem flatten_getElem?_uniform (rows : List (List Texel)) (n : Nat)
    (hn : ∀ row ∈ rows, row.length = n) (i j : Nat) (hj : j < n) :
    rows.flatten[i * n + j]? = rows[i]?.bind (fun row => row[j]?) := by
  induction rows generalizing i with
  | nil => simp
  | cons row rest ih =>
    have hrow : row.length = n := hn row (List.mem_cons_self row rest)
    cases i with
    | zero =>
      simp only [List.flatten_cons, Nat.zero_mul, Nat.zero_add]
      rw [List.getElem?_append_left (by omega)]
      simp
    | succ i' =>
      simp only [List.flatten_cons]
      have hge : row.length ≤ (i' + 1) * n + j := by
        rw [hrow, Nat.succ_mul]; omega
      rw [List.getElem?_append_right hge]
      have harith : (i' + 1) * n + j - row.length = i' * n + j := by
        rw [hrow, Nat.succ_mul]; omega
      rw [harith, ih (fun r hr => hn r (List.mem_cons_of_mem row hr)) i']
      simp

theorem length_eq_of_map_length (A B : List (List Texel)) (n : Nat)
    (h : A.map List.length = B.map List.length) (hB : ∀ b ∈ B, b.length = n) :
    ∀ a ∈ A, a.length = n := by
  induction A generalizing B with
  | nil => intro a ha; simp at ha
  | cons a₀ as ih =>
    cases B with
    | nil => simp at h
    | cons b₀ bs =>
      simp only [List.map_cons, List.cons.injEq] at h
      intro a ha
      rcases List.mem_cons.mp ha with h' | h'
      · subst h'
        rw [h.1]
        exact hB b₀ (List.mem_cons_self b₀ bs)
      · exact ih bs h.2 (fun b hb => hB b (List.mem_cons_of_mem b₀ hb)) a h'

theorem compositeLayer_getElem? (cols rowsV : Nat) (buffer : List Texel) (l : Layer)
    (r : List Texel) (cell : Cell) (t : Texel)
    (hbuf : buffer.length = cols * rowsV)
    (hrow : cell.row < rowsV) (hcol : cell.col < cols)
    (hl : layerTexelAt l cell = some t) (hg : t.glyph.isSome = true)
    (h : compositeLayer cols buffer l = some r) :
    texelAt cols r cell = some t := by
  unfold layerTexelAt at hl
  split at hl
  case isFalse => exact absurd hl (by simp)
  case isTrue hcond =>
    obtain ⟨hox, hstride, hoy⟩ := hcond
    cases hsr : (listChunks l.stride l.data)[cell.row - l.origin.row]? with
    | none => rw [hsr] at hl; simp at hl
    | some srcRow =>
      rw [hsr] at hl
      have hl' : srcRow[cell.col - l.origin.col]? = some t := hl
      have hcols : 0 < cols := by omega
      have hstridepos : 0 < l.stride := by omega
      unfold compositeLayer at h
      rw [if_neg (by omega)] at h
      have hch : chunksOpt l.stride l.data = some (listChunks l.stride l.data) := by
        unfold chunksOpt
        rw [if_neg (by omega)]
      rw [hch] at h
      simp only at h
      cases hcr : compositeRows l.origin.col
          ((listChunks cols buffer).drop l.origin.row) (listChunks l.stride l.data) with
      | none => rw [hcr] at h; simp at h
      | some post =>
        rw [hcr] at h
        simp only at h
        cases Option.some.inj h
        have hdlen : (listChunks cols buffer).length = rowsV :=
          listChunks_length_of_mul cols hcols rowsV buffer hbuf
        have hdfull : ∀ c ∈ listChunks cols buffer, c.length = cols :=
          listChunks_full_of_mul cols hcols rowsV buffer hbuf
        have hcy : cell.row < (listChunks cols buffer).length := by omega
        have hd : (listChunks cols buffer)[cell.row]?
            = some ((listChunks cols buffer)[cell.row]) :=
          List.getElem?_eq_getElem hcy
        have hdm : ((listChunks cols buffer)[cell.row]).length = cols :=
          hdfull _ (List.getElem_mem hcy)
        have hddrop : ((listChunks cols buffer).drop l.origin.row)[cell.row - l.origin.row]?
            = some ((listChunks cols buffer)[cell.row]) := by
          rw [List.getElem?_drop]
          have : l.origin.row + (cell.row - l.origin.row) = cell.row := by omega
          rw [this, hd]
        obtain ⟨d', hcrow, hpost⟩ :=
          compositeRows_getElem? l.origin.col _ _ post (cell.row - l.origin.row)
            _ srcRow hcr hddrop hsr
        have hd' : d'[cell.col]? = some t := by
          have := compositeRow_getElem? _ _ _ _ (cell.col - l.origin.col) t hcrow hl' hg
            (by rw [hdm]; omega)
          have harith : l.origin.col + (cell.col - l.origin.col) = cell.col := by omega
          rwa [harith] at this
        have hpre : ((listChunks cols buffer).take l.origin.row).length = l.origin.row := by
          rw [List.length_take]
          omega
        have hpostlen : ∀ row ∈ post, row.length = cols := by
          refine length_eq_of_map_length post ((listChunks cols buffer).drop l.origin.row)
            cols (compositeRows_map_length _ _ _ _ hcr) ?_
          intro b hb
          exact hdfull b (List.drop_subset _ _ hb)
        have huniform : ∀ row ∈ (listChunks cols buffer).take l.origin.row ++ post,
            row.length = cols := by
          intro row hrow'
          rcases List.mem_append.mp hrow' with h' | h'
          · exact hdfull row (List.take_subset _ _ h')
          · exact hpostlen row h'
        unfold texelAt
        rw [if_pos hcol]
        rw [flatten_getElem?_uniform _ cols huniform cell.row cell.col hcol]
        rw [List.getElem?_append_right (by omega)]
        rw [hpre]
        rw [hpost]
        simpa using hd'

theorem compositeAll_pair (cols : Nat) (buffer : List Texel) (A B : Layer)
    (r : List Texel) (h : compositeAll cols buffer [A, B] = some r) :
    ∃ bufA, compositeLayer cols buffer A = some bufA ∧
      compositeLayer cols bufA B = some r := by
  unfold compositeAll at h
  cases hA : compositeLayer cols buffer A with
  | none => rw [hA] at h; simp at h
  | some bufA =>
    rw [hA] at h
    simp only at h
    unfold compositeAll at h
    cases hB : compositeLayer cols bufA B with
    | none => rw [hB] at h; simp at h
    | some bufB =>
      rw [hB] at h
      simp only at h
      refine ⟨bufA, rfl, ?_⟩
      rw [hB]
      exact congrArg some (Option.some.inj h)

/-- C1: the claim that each maximal differing run gets exactly one write —
and in particular that, for a prior frame and a new frame differing only
in cells 3..5 of row 2 of a 20-column viewport, row 2 receives exactly
one write covering columns 3..5 and nothing touching columns 6..19 —
fails on the code: the end-of-row flush fires when the loop ends in the
unchanged state, so row 2 receives a second write at column 6 carrying
the 14 unchanged texels of columns 6..19. -/
theorem c1_run_coalescing_extra_write :
    (renderPlan runCanvas [runLayer]).map
        (fun p => (p.2.filter (fun wr => wr.1.row == 2)).map
          (fun wr => (wr.1.col, wr.2.length)))
      = some [(3, 3), (6, 14)] := by decide

/-- C2: the claim that unchanged cells are never re-sent except for one
full-row write of a fully-unchanged row fails on the code: the complete
write list for the `runCanvas`/`runLayer` scenario shows that row 2,
which has changed cells 3..5, still receives a write at (6,2) re-sending
the 14 unchanged texels of columns 6..19. -/
theorem c2_unchanged_cells_resent :
    renderPlan runCanvas [runLayer]
      = some (List.replicate 43 Texel.empty ++ List.replicate 3 (Texel.new 'a')
            ++ List.replicate 14 Texel.empty,
          [(Cell.from_xy 0 0, List.replicate 20 Texel.empty),
           (Cell.from_xy 0 1, List.replicate 20 Texel.empty),
           (Cell.from_xy 3 2, List.replicate 3 (Texel.new 'a')),
           (Cell.from_xy 6 2, List.replicate 14 Texel.empty)]) := by decide

/-- C4: the claim that `winch` followed by `render` repaints every row of
the viewport in full fails on the code: growing a 2x2 canvas to 3x2
leaves the capacity at 4 because `Vec::reserve(growth)` is a no-op when
the existing capacity covers the growth, so the next render fills only
4 texels and the write for row 1 carries a single texel instead of a
full 3-texel row. -/
theorem c4_winch_short_repaint :
    render (Canvas.new (Cell.from_xy 2 2)) [] okTty ()
        = some (Except.ok (),
            { viewport := Cell.from_xy 2 2, buffer := List.replicate 4 Texel.empty, cap := 4 })
    ∧ Canvas.winch
          { viewport := Cell.from_xy 2 2, buffer := List.replicate 4 Texel.empty, cap := 4 }
          (Cell.from_xy 3 2)
        = { viewport := Cell.from_xy 3 2, buffer := [], cap := 4 }
    ∧ renderPlan { viewport := Cell.from_xy 3 2, buffer := [], cap := 4 } []
        = some (List.replicate 4 Texel.empty,
            [(Cell.from_xy 0 0, List.replicate 3 Texel.empty),
             (Cell.from_xy 0 1, [Texel.empty])]) :=
  ⟨rfl, by decide, by decide⟩

/-- C5 counterexample: two styles that agree on the `fg()`, `bg()` and
`weight()` observables but compare unequal, because the second retains
the stored color `DkRed` under its FgReset flag while `Style.new` stores
`DkBlack` there, and the derived equality compares stored fields. -/
theorem c5_observables_agree_but_ne :
    Style.new.fg = ((Style.new.with_fg (some Color.DkRed)).with_fg none).fg
    ∧ Style.new.bg = ((Style.new.with_fg (some Color.DkRed)).with_fg none).bg
    ∧ Style.new.weight = ((Style.new.with_fg (some Color.DkRed)).with_fg none).weight
    ∧ Style.new ≠ (Style.new.with_fg (some Color.DkRed)).with_fg none := by decide

/-- C5 amended: equal styles have equal `fg()`, `bg()` and `weight()`
observables; the converse direction of the claimed equivalence is false
(see the counterexample), because equality also compares a stored color
that a reset flag masks from the observables. -/
theorem c5_eq_implies_observables_eq :
    ∀ a b : Style, a = b → a.fg = b.fg ∧ a.bg = b.bg ∧ a.weight = b.weight := by
  intro a b h
  subst h
  exact ⟨rfl, rfl, rfl⟩

theorem c5_eq_implies_observables_eq_witness :
    Style.new.fg = Style.new.fg ∧ Style.new.bg = Style.new.bg
    ∧ Style.new.weight = Style.new.weight :=
  c5_eq_implies_observables_eq Style.new Style.new rfl

/-- C6 counterexample: a layer whose data length (3) is not a multiple of
its stride (2) does not make `render` fail fast: the plan succeeds, with
the partial last source row composited as a shorter row. -/
theorem c6_nonmultiple_not_failfast :
    renderPlan { viewport := Cell.from_xy 2 2, buffer := [], cap := 4 }
        [{ origin := Cell.from_xy 0 0, stride := 2,
           data := List.replicate 3 (Texel.new 'a') }]
      = some ([Texel.new 'a', Texel.new 'a', Texel.new 'a', Texel.empty],
          [(Cell.from_xy 0 0, [Texel.new 'a', Texel.new 'a']),
           (Cell.from_xy 0 1, [Texel.new 'a', Texel.empty])]) := by decide

/-- C6 amended: a zero stride on a layer that is not skipped by the
origin-column guard does fail fast (the `chunks` zero-size assertion,
i.e. the composition panics), but a data length that is not a multiple
of the stride is not detected: composition succeeds and the trailing
partial source row is placed as a shorter row. -/
theorem c6_fail_fast_amended :
    (∀ (cols : Nat) (buffer : List Texel) (l : Layer),
      l.stride = 0 → l.origin.col < cols → compositeLayer cols buffer l = none)
    ∧ compositeLayer 2 (List.replicate 4 Texel.empty)
        { origin := Cell.from_xy 0 0, stride := 2,
          data := List.replicate 3 (Texel.new 'a') }
      = some [Texel.new 'a', Texel.new 'a', Texel.new 'a', Texel.empty] := by
  constructor
  · intro cols buffer l h0 hox
    unfold compositeLayer
    rw [if_neg (by omega)]
    unfold chunksOpt
    rw [if_pos h0]
  · decide

theorem c6_fail_fast_amended_witness :
    compositeLayer 1 []
        { origin := Cell.from_xy 0 0, stride := 0, data := [] } = none :=
  c6_fail_fast_amended.1 1 []
    { origin := Cell.from_xy 0 0, stride := 0, data := [] } rfl (by decide)

/-- C7: compositing a layer all of whose texels are glyph-less leaves the
scratch buffer unchanged, for any viewport width, any layer position and
any buffer contents, whenever the compositing step completes without
panicking. -/
theorem c7_transparent_layer_noop (cols : Nat) (buffer : List Texel) (l : Layer)
    (r : List Texel) (htr : ∀ t ∈ l.data, t.glyph = none)
    (h : compositeLayer cols buffer l = some r) : r = buffer :=
  compositeLayer_transparent cols buffer l r htr h

theorem c7_transparent_layer_noop_witness :
    (∀ t ∈ glassLayer.data, t.glyph = none)
    ∧ ([Texel.new 'x'] : List Texel) = [Texel.new 'x'] :=
  ⟨by decide,
   c7_transparent_layer_noop 1 [Texel.new 'x'] glassLayer
     [Texel.new 'x'] (by decide) rfl⟩

/-- C8: painter's order — when two layers A then B are composited and a
viewport cell is covered by both with both source texels opaque (having
a glyph), the composited frame holds B's texel at that cell. -/
theorem c8_painters_order (cols rowsV : Nat) (buffer : List Texel) (A B : Layer)
    (r : List Texel) (cell : Cell) (tA tB : Texel)
    (hbuf : buffer.length = cols * rowsV)
    (hrow : cell.row < rowsV) (hcol : cell.col < cols)
    (hA : layerTexelAt A cell = some tA) (hAg : tA.glyph.isSome = true)
    (hB : layerTexelAt B cell = some tB) (hBg : tB.glyph.isSome = true)
    (hc : compositeAll cols buffer [A, B] = some r) :
    texelAt cols r cell = some tB := by
  obtain ⟨bufA, hA', hB'⟩ := compositeAll_pair cols buffer A B r hc
  have hlenA : bufA.length = cols * rowsV := by
    rw [compositeLayer_length _ _ _ _ hA', hbuf]
  exact compositeLayer_getElem? cols rowsV bufA B r cell tB hlenA hrow hcol hB hBg hB'

theorem c8_painters_order_witness :
    texelAt 1 [Texel.new 'y'] (Cell.from_xy 0 0) = some (Texel.new 'y') :=
  c8_painters_order 1 1 [Texel.empty]
    { origin := Cell.from_xy 0 0, stride := 1, data := [Texel.new 'x'] }
    { origin := Cell.from_xy 0 0, stride := 1, data := [Texel.new 'y'] }
    [Texel.new 'y'] (Cell.from_xy 0 0) (Texel.new 'x') (Texel.new 'y')
    rfl (by decide) (by decide) (by decide) (by decide) (by decide) (by decide) rfl

/-- C9: `Style::diff` reports, independently for foreground, background
and weight, no change exactly when the corresponding observable of the
two styles agrees, and otherwise the target style's observable value; in
particular diffing red-on-red foregrounds reports no foreground change,
and diffing red against reset reports a foreground change to reset. -/
theorem c9_style_diff_observables :
    (∀ a b : Style,
      ((Style.diff a b).1 = none ↔ a.fg = b.fg)
      ∧ ((Style.diff a b).2.1 = none ↔ a.bg = b.bg)
      ∧ ((Style.diff a b).2.2 = none ↔ a.weight = b.weight)
      ∧ (a.fg ≠ b.fg → (Style.diff a b).1 = some b.fg)
      ∧ (a.bg ≠ b.bg → (Style.diff a b).2.1 = some b.bg)
      ∧ (a.weight ≠ b.weight → (Style.diff a b).2.2 = some b.weight))
    ∧ ((Style.new.with_fg (some Color.LtRed)).diff
        (Style.new.with_fg (some Color.LtRed))).1 = none
    ∧ ((Style.new.with_fg (some Color.LtRed)).diff (Style.new.with_fg none)).1
      = some none := by
  refine ⟨fun a b => ⟨?_, ?_, ?_, ?_, ?_, ?_⟩, by decide, by decide⟩
  · by_cases h : a.fg = b.fg <;> simp [Style.diff, h]
  · by_cases h : a.bg = b.bg <;> simp [Style.diff, h]
  · by_cases h : a.weight = b.weight <;> simp [Style.diff, h]
  · intro h; simp [Style.diff, h]
  · intro h; simp [Style.diff, h]
  · intro h; simp [Style.diff, h]

theorem c9_style_diff_observables_witness :
    (Style.new.diff (Style.new.with_fg (some Color.LtRed))).1
      = some (some Color.LtRed) := by
  have h := c9_style_diff_observables.1 Style.new (Style.new.with_fg (some Color.LtRed))
  have hne : Style.new.fg ≠ (Style.new.with_fg (some Color.LtRed)).fg := by decide
  rw [h.2.2.2.1 hne]
  decide

/-- C3: after a successful render on a canvas whose capacity equals its
viewport cell count, rendering the exact same layer sequence again (no
winch in between) issues exactly one write per row of the viewport,
each write starting at column 0 and carrying the entire unchanged row of
the retained frame: the content is idempotent even though rows are still
written. -/
theorem c3_second_render_idempotent_content {σ ε : Type} (c : Canvas)
    (layers : List Layer) (w : σ → Cell → List Texel → Except ε (Nat × σ))
    (s s' : σ) (c₁ : Canvas)
    (hcap : c.cap = c.viewport.col * c.viewport.row)
    (hr : render c layers w s = some (Except.ok s', c₁)) :
    renderPlan c₁ layers
      = some (c₁.buffer, fullWrites (listChunks c.viewport.col c₁.buffer) 0)
    ∧ (listChunks c.viewport.col c₁.buffer).length = c.viewport.row
    ∧ ∀ line ∈ listChunks c.viewport.col c₁.buffer, line.length = c.viewport.col := by
  unfold render at hr
  cases hp : renderPlan c layers with
  | none => rw [hp] at hr; simp at hr
  | some p =>
    rw [hp] at hr
    obtain ⟨nb, ws⟩ := p
    simp only at hr
    cases hw : runWrites w s ws with
    | error e => rw [hw] at hr; simp at hr
    | ok s'' =>
      rw [hw] at hr
      simp only [Option.some.injEq, Prod.mk.injEq, Except.ok.injEq] at hr
      obtain ⟨hs'', hc₁⟩ := hr
      subst hc₁
      unfold renderPlan at hp
      cases hca : compositeAll c.viewport.col (List.replicate c.cap Texel.empty) layers with
      | none => rw [hca] at hp; simp at hp
      | some nb0 =>
        rw [hca] at hp
        simp only at hp
        by_cases hc0 : c.viewport.col = 0
        · rw [if_pos hc0] at hp; simp at hp
        · rw [if_neg hc0] at hp
          have hcols : 0 < c.viewport.col := Nat.pos_of_ne_zero hc0
          cases hX : (if c.buffer.isEmpty = true
              then some (fullWrites (listChunks c.viewport.col nb0) 0)
              else diffWrites c.viewport.col 0 (listChunks c.viewport.col nb0) c.buffer) with
          | none => rw [hX] at hp; simp at hp
          | some writes =>
            rw [hX] at hp
            simp only [Option.some.injEq, Prod.mk.injEq] at hp
            obtain ⟨hnb, hws⟩ := hp
            subst hnb
            have hlen : nb0.length = c.cap := by
              rw [compositeAll_length _ _ _ _ hca]
              simp
            refine ⟨?_, ?_, ?_⟩
            · unfold renderPlan
              dsimp only
              rw [hca]
              dsimp only
              rw [if_neg hc0]
              cases hnb0 : nb0 with
              | nil => rfl
              | cons x xs =>
                dsimp only [List.isEmpty_cons]
                rw [diffWrites_self c.viewport.col hcols (x :: xs) 0]
                simp
            · dsimp only
              refine listChunks_length_of_mul c.viewport.col hcols c.viewport.row nb0 ?_
              rw [hlen, hcap]
            · dsimp only
              refine listChunks_full_of_mul c.viewport.col hcols c.viewport.row nb0 ?_
              rw [hlen, hcap]

theorem c3_second_render_idempotent_content_witness :
    renderPlan { viewport := Cell.from_xy 1 1, buffer := [Texel.empty], cap := 1 } []
      = some ([Texel.empty], fullWrites (listChunks 1 [Texel.empty]) 0)
    ∧ (listChunks 1 ([Texel.empty] : List Texel)).length = 1
    ∧ ∀ line ∈ listChunks 1 ([Texel.empty] : List Texel), line.length = 1 :=
  c3_second_render_idempotent_content (Canvas.new (Cell.from_xy 1 1)) [] okTty () ()
    { viewport := Cell.from_xy 1 1, buffer := [Texel.empty], cap := 1 } rfl rfl

/-- C10: when the canvas holds a prior frame (non-empty retained buffer)
and some write fails during `render`, the error is returned and the
canvas — in particular its retained buffer — is left exactly as it was:
composition happened in a side buffer that is only installed after all
writes succeed. -/
theorem c10_error_leaves_buffer {σ ε : Type} (c : Canvas) (layers : List Layer)
    (w : σ → Cell → List Texel → Except ε (Nat × σ)) (s : σ) (e : ε) (c' : Canvas)
    (hne : c.buffer ≠ [])
    (hr : render c layers w s = some (Except.error e, c')) : c' = c := by
  unfold render at hr
  cases hp : renderPlan c layers with
  | none => rw [hp] at hr; simp at hr
  | some p =>
    rw [hp] at hr
    obtain ⟨nb, ws⟩ := p
    simp only at hr
    cases hw : runWrites w s ws with
    | ok s' => rw [hw] at hr; simp at hr
    | error e' =>
      rw [hw] at hr
      cases hb : c.buffer with
      | nil => exact absurd hb hne
      | cons y ys =>
        rw [hb] at hr
        simp only [List.isEmpty_cons, Bool.false_eq_true, if_false,
          Option.some.injEq, Prod.mk.injEq, Except.error.injEq] at hr
        exact hr.2.symm

theorem c10_error_leaves_buffer_witness :
    ({ viewport := Cell.from_xy 1 1, buffer := [Texel.empty], cap := 1 } : Canvas)
      = { viewport := Cell.from_xy 1 1, buffer := [Texel.empty], cap := 1 } :=
  c10_error_leaves_buffer
    { viewport := Cell.from_xy 1 1, buffer := [Texel.empty], cap := 1 }
    [] failTty () () _ (by decide) rfl

end Voltorb
